import Mathlib

/-!
Verification of the fanout-exchange broadcast system.

Shallow embedding of a fanout (broadcast) messaging lab: a publisher
serializes user-action events to JSON and publishes them to a fanout
exchange; four bound queues (analytics, notification, audit, cache
invalidation) each receive one copy per publish; each consumer parses the
copy and applies its policy (counters, notification effects, audit
entries with compliance flags, cache invalidation).

The event data model follows the specification: an event carries an
action kind, a subject id, a timestamp string, and an open string-keyed
payload mapping keys to scalar values.  JSON serialization is modelled
concretely at the character level (compact form, i.e. without the
optional pretty-printing whitespace, which none of the verified
properties depend on); parsing models `JSON.parse` restricted to the two
document shapes this system ever reads back: published event records and
the audit-log array.
-/

namespace Fanout

/-- Scalar JSON value: payloads map string keys to scalar/string values
(numbers are modelled as integers; fractional literals are outside the
embedding). -/
inductive Scalar where
  | null : Scalar
  | bool : Bool → Scalar
  | num : Int → Scalar
  | str : String → Scalar
deriving DecidableEq, Repr

/-- Open string-keyed payload map, insertion-ordered like a JS object. -/
abbrev Payload := List (String × Scalar)

/-- The message record built by `ActionPublisher.publishAction`:
`{ action, userId, timestamp, data }`. -/
structure Message where
  action : String
  userId : String
  timestamp : String
  data : Payload
deriving DecidableEq, Repr

/-- Field access `payload.key` in JS: `some` when present, `none` when the
property is absent (JS `undefined`). -/
def payloadGet (p : Payload) (k : String) : Option Scalar :=
  (p.find? (fun kv => kv.1 = k)).map (fun kv => kv.2)

/-! ### JSON serialization (JSON.stringify, compact form) -/

/-- Escaping of one character inside a JSON string literal. -/
def escChar (c : Char) : List Char :=
  if c = '"' then ['\\', '"']
  else if c = '\\' then ['\\', '\\']
  else [c]

/-- Escaped character content of a JSON string literal. -/
def escList : List Char → List Char
  | [] => []
  | c :: rest => escChar c ++ escList rest

/-- JSON string literal for `s`, quotes included. -/
def encString (s : String) : List Char :=
  '"' :: escList s.data ++ ['"']

/-- Decimal digit character. -/
def digitChar (d : Nat) : Char := Char.ofNat (48 + d)

/-- Fuelled most-significant-first decimal rendering of a natural number. -/
def natCharsAux (fuel : Nat) (n : Nat) : List Char :=
  match fuel with
  | 0 => []
  | f + 1 =>
    if n < 10 then [digitChar n]
    else natCharsAux f (n / 10) ++ [digitChar (n % 10)]

/-- Decimal rendering of a natural number. -/
def natToChars (n : Nat) : List Char := natCharsAux (n + 1) n

/-- Decimal rendering of an integer. -/
def intToChars : Int → List Char
  | .ofNat n => natToChars n
  | .negSucc m => '-' :: natToChars (m + 1)

/-- JSON rendering of a scalar value. -/
def encScalar : Scalar → List Char
  | .null => "null".data
  | .bool b => if b then "true".data else "false".data
  | .num n => intToChars n
  | .str s => encString s

/-- Comma-separated members of a JSON object (without the braces). -/
def encMembers : Payload → List Char
  | [] => []
  | (k, v) :: rest =>
    encString k ++ ':' :: encScalar v ++
      (if rest.isEmpty then [] else ',' :: encMembers rest)

/-- JSON object for a payload. -/
def encPayload (p : Payload) : List Char := '{' :: encMembers p ++ ['}']

/-- Wire form of a published message: the JSON serialization of
`{ action, userId, timestamp, data }` in the key order the publisher
constructs the record. -/
def encMessage (m : Message) : List Char :=
  '{' :: (encString "action" ++ ':' :: encString m.action
    ++ ',' :: encString "userId" ++ ':' :: encString m.userId
    ++ ',' :: encString "timestamp" ++ ':' :: encString m.timestamp
    ++ ',' :: encString "data" ++ ':' :: encPayload m.data) ++ ['}']

/-! ### JSON parsing (JSON.parse on the wire/file document shapes) -/

/-- Consume an exact literal character sequence. -/
def expectChars : List Char → List Char → Option (List Char)
  | [], cs => some cs
  | _ :: _, [] => none
  | p :: ps, c :: cs => if c = p then expectChars ps cs else none

/-- Content of a JSON string literal after the opening quote, up to and
including the closing quote; returns the unescaped characters and the
remaining input. -/
def parseStringBody : List Char → Option (List Char × List Char)
  | [] => none
  | c :: rest =>
    if c = '"' then some ([], rest)
    else if c = '\\' then
      match rest with
      | [] => none
      | e :: rest2 =>
        if e = '"' || e = '\\' then
          match parseStringBody rest2 with
          | some (s, r) => some (e :: s, r)
          | none => none
        else none
    else
      match parseStringBody rest with
      | some (s, r) => some (c :: s, r)
      | none => none

/-- Parse a JSON string literal including its opening quote. -/
def parseString : List Char → Option (List Char × List Char)
  | [] => none
  | c :: rest => if c = '"' then parseStringBody rest else none

/-- Split a maximal run of decimal digits off the front of the input. -/
def takeDigits : List Char → List Char × List Char
  | [] => ([], [])
  | c :: rest =>
    if c.isDigit then
      let (ds, r) := takeDigits rest
      (c :: ds, r)
    else ([], c :: rest)

/-- Numeric value of a digit character. -/
def charVal (c : Char) : Nat := c.toNat - 48

/-- Value of a most-significant-first digit string. -/
def decodeDigits (ds : List Char) : Nat :=
  ds.foldl (fun a c => a * 10 + charVal c) 0

/-- Parse one scalar JSON value. -/
def parseScalar : List Char → Option (Scalar × List Char)
  | [] => none
  | c :: rest =>
    if c = '"' then
      match parseStringBody rest with
      | some (s, r) => some (.str ⟨s⟩, r)
      | none => none
    else if c = 'n' then
      match rest with
      | 'u' :: 'l' :: 'l' :: r => some (.null, r)
      | _ => none
    else if c = 't' then
      match rest with
      | 'r' :: 'u' :: 'e' :: r => some (.bool true, r)
      | _ => none
    else if c = 'f' then
      match rest with
      | 'a' :: 'l' :: 's' :: 'e' :: r => some (.bool false, r)
      | _ => none
    else if c = '-' then
      match takeDigits rest with
      | ([], _) => none
      | (ds, r) => some (.num (-(decodeDigits ds : Int)), r)
    else if c.isDigit then
      match takeDigits rest with
      | (ds, r) => some (.num (decodeDigits (c :: ds)), r)
    else none

/-- Parse the members of a nonempty JSON object, consuming the closing
brace.  Fuel bounds the number of members. -/
def parseMembers (fuel : Nat) (cs : List Char) : Option (Payload × List Char) :=
  match fuel with
  | 0 => none
  | f + 1 =>
    match parseString cs with
    | none => none
    | some (k, r1) =>
      match r1 with
      | [] => none
      | c :: r2 =>
        if c = ':' then
          match parseScalar r2 with
          | none => none
          | some (v, r3) =>
            match r3 with
            | [] => none
            | d :: r4 =>
              if d = ',' then
                match parseMembers f r4 with
                | some (ps, r5) => some ((⟨k⟩, v) :: ps, r5)
                | none => none
              else if d = '}' then some ([(⟨k⟩, v)], r4)
              else none
        else none

/-- Parse a JSON object as a payload, consuming the closing brace. -/
def parsePayload (fuel : Nat) (cs : List Char) : Option (Payload × List Char) :=
  match cs with
  | [] => none
  | c :: rest =>
    if c = '{' then
      match rest with
      | [] => none
      | d :: rest2 => if d = '}' then some ([], rest2) else parseMembers fuel rest
    else none

/-- Parse of a delivered wire: `JSON.parse(msg.content.toString())`
restricted to the event-record document shape the publisher emits,
followed by the consumers' field accesses.  The whole input must form one
complete document, as with `JSON.parse`. -/
def parseMessage (cs : List Char) : Option Message :=
  match expectChars ('{' :: (encString "action" ++ [':'])) cs with
  | none => none
  | some r0 =>
    match parseString r0 with
    | none => none
    | some (a, r1) =>
      match expectChars (',' :: (encString "userId" ++ [':'])) r1 with
      | none => none
      | some r2 =>
        match parseString r2 with
        | none => none
        | some (u, r3) =>
          match expectChars (',' :: (encString "timestamp" ++ [':'])) r3 with
          | none => none
          | some r4 =>
            match parseString r4 with
            | none => none
            | some (t, r5) =>
              match expectChars (',' :: (encString "data" ++ [':'])) r5 with
              | none => none
              | some r6 =>
                match parsePayload (r6.length + 1) r6 with
                | none => none
                | some (p, r7) =>
                  match r7 with
                  | ['}'] => some ⟨⟨a⟩, ⟨u⟩, ⟨t⟩, p⟩
                  | _ => none

/-! ### Broker and topology (config.js, setup-exchange.js, action-publisher.js) -/

/-- Broker state.  Modelled from the spec: the transport is a black-box
durable multicast primitive (spec sections 1 and 4.1); a fanout exchange
delivers one independent copy of each published message to every bound
queue, appended in publish order, and `assertExchange`, `assertQueue` and
`bindQueue` are idempotent declarations. -/
structure Broker where
  exchanges : List String
  queues : List String
  bindings : List (String × String)
  queueBuf : String → List (List Char)

/-- Broker with no exchanges, queues, bindings or buffered messages. -/
def emptyBroker : Broker :=
  { exchanges := [], queues := [], bindings := [], queueBuf := fun _ => [] }

/-- Idempotent exchange declaration (`channel.assertExchange`). -/
def assertExchange (name : String) (b : Broker) : Broker :=
  { b with exchanges :=
      if b.exchanges.contains name then b.exchanges else name :: b.exchanges }

/-- Idempotent queue declaration (`channel.assertQueue`). -/
def assertQueue (name : String) (b : Broker) : Broker :=
  { b with queues :=
      if b.queues.contains name then b.queues else name :: b.queues }

/-- Idempotent binding of a queue to an exchange (`channel.bindQueue`);
the routing key is ignored for a fanout exchange. -/
def bindQueue (queue exchange : String) (b : Broker) : Broker :=
  { b with bindings :=
      if b.bindings.contains (queue, exchange) then b.bindings
      else (queue, exchange) :: b.bindings }

/-- Queues currently bound to an exchange. -/
def boundQueues (exchange : String) (b : Broker) : List String :=
  (b.bindings.filter (fun qe => qe.2 = exchange)).map (fun qe => qe.1)

/-- Fanout publish (`channel.publish` on a fanout exchange): every bound
queue receives one copy of the wire, appended in publish order. -/
def brokerPublish (exchange : String) (wire : List Char) (b : Broker) : Broker :=
  { b with queueBuf := fun q =>
      if (boundQueues exchange b).contains q then b.queueBuf q ++ [wire]
      else b.queueBuf q }

/-- Exchange name from `config.rabbitmq.exchange.name`. -/
def exchangeName : String := "user.actions"

/-- The queue names from `config.rabbitmq.queues`, in `Object.values`
order: analytics, notification, audit, cache. -/
def configQueues : List String :=
  ["analytics.queue", "notification.queue", "audit.queue", "cache.invalidation.queue"]

/-- The topology-setup script `setupExchange`: declare the fanout
exchange, then declare and bind every configured queue. -/
def setupExchange (b : Broker) : Broker :=
  configQueues.foldl (fun st q => bindQueue q exchangeName (assertQueue q st))
    (assertExchange exchangeName b)

/-- Arguments of one `publishAction` call; `data` is `none` when the
caller omits the argument (JS default parameter `data = {}`), and `now`
is the observed `new Date().toISOString()` value. -/
structure PubReq where
  action : String
  userId : String
  data : Option Payload
  now : String

/-- The message record `publishAction` constructs for a call. -/
def mkMessage (e : PubReq) : Message :=
  { action := e.action, userId := e.userId, timestamp := e.now,
    data := e.data.getD [] }

/-- `ActionPublisher.publishAction`: build the message record, publish
its JSON serialization to the fanout exchange, and return the record. -/
def publishAction (action userId : String) (data : Option Payload) (now : String)
    (b : Broker) : Message × Broker :=
  let message : Message :=
    { action := action, userId := userId, timestamp := now, data := data.getD [] }
  (message, brokerPublish exchangeName (encMessage message) b)

/-- Sequence of `publishAction` calls. -/
def publishAll (evts : List PubReq) (b : Broker) : Broker :=
  evts.foldl (fun st e => (publishAction e.action e.userId e.data e.now st).2) b

/-! ### Subscriber runtime (the shared consume-callback shape) -/

/-- One delivery handled by a consumer runtime.  All four consumers'
`consume` callbacks share this shape: parse the delivered content with
`JSON.parse`, run the policy handler, and acknowledge only afterwards.
If `JSON.parse` or the handler throws, control never reaches
`channel.ack`, so the message stays unacknowledged.  Returns the
post-state and whether the delivery was acknowledged. -/
def consumeStep {σ : Type} (handle : σ → Message → Except String σ)
    (st : σ) (wire : List Char) : σ × Bool :=
  match parseMessage wire with
  | none => (st, false)
  | some m =>
    match handle st m with
    | .ok st2 => (st2, true)
    | .error _ => (st, false)

/-! ### Analytics consumer -/

/-- `AnalyticsConsumer.this.stats`. -/
structure Stats where
  login : Nat
  purchase : Nat
  profile_update : Nat
  total : Nat
deriving DecidableEq, Repr

/-- `this.stats.hasOwnProperty(k)`: the stats object owns exactly the
four keys it is initialized with. -/
def statsHasOwnProperty (k : String) : Bool :=
  k = "login" || k = "purchase" || k = "profile_update" || k = "total"

/-- Dynamic field increment `this.stats[k]++`. -/
def statsIncrField (s : Stats) (k : String) : Stats :=
  if k = "login" then { s with login := s.login + 1 }
  else if k = "purchase" then { s with purchase := s.purchase + 1 }
  else if k = "profile_update" then { s with profile_update := s.profile_update + 1 }
  else if k = "total" then { s with total := s.total + 1 }
  else s

/-- `AnalyticsConsumer.processAction`: bump the per-kind counter when the
stats object owns that key, then bump `total`. -/
def processAction (s : Stats) (action : Message) : Stats :=
  let s1 := if statsHasOwnProperty action.action then statsIncrField s action.action else s
  { s1 with total := s1.total + 1 }

/-! ### Notification consumer -/

/-- Observable notification effects of `NotificationConsumer`. -/
inductive NotifEffect where
  | loginAlert (userId : String) (device : Option Scalar)
  | purchaseConfirmation (productId amount : Option Scalar)
  | profileChange (field : Option Scalar)
deriving DecidableEq, Repr

/-- `NotificationConsumer.sendNotifications`: dispatch on the action
kind; unmatched kinds produce no notification effect. -/
def sendNotifications (action : Message) : List NotifEffect :=
  if action.action = "login" then
    [.loginAlert action.userId (payloadGet action.data "device")]
  else if action.action = "purchase" then
    [.purchaseConfirmation (payloadGet action.data "productId")
      (payloadGet action.data "amount")]
  else if action.action = "profile_update" then
    [.profileChange (payloadGet action.data "field")]
  else []

/-! ### Cache-invalidation consumer -/

/-- `CacheInvalidator.this.cacheStats`. -/
structure CacheStats where
  invalidated : Nat
  skipped : Nat
deriving DecidableEq, Repr

/-- One cache-invalidation call; the product variant records the
`action.data.productId` value it was handed (`none` models an absent
property, JS `undefined` — template-stringified, never a crash). -/
inductive CacheOp where
  | user (userId : String)
  | product (productId : Option Scalar)
deriving DecidableEq, Repr

/-- `CacheInvalidator.invalidateUserCache`: one invalidation call, one
counter increment. -/
def invalidateUserCache (st : CacheStats) (userId : String) : CacheStats × CacheOp :=
  ({ st with invalidated := st.invalidated + 1 }, .user userId)

/-- `CacheInvalidator.invalidateProductCache`: one invalidation call, one
counter increment. -/
def invalidateProductCache (st : CacheStats) (productId : Option Scalar) :
    CacheStats × CacheOp :=
  ({ st with invalidated := st.invalidated + 1 }, .product productId)

/-- `CacheInvalidator.invalidateCache`: switch on the action kind;
`profile_update` invalidates the subject cache, `purchase` invalidates
the subject cache and then the product cache with whatever
`action.data.productId` holds, `login` and unmatched kinds skip.
Returns the new stats and the invalidation calls made. -/
def invalidateCache (st : CacheStats) (action : Message) : CacheStats × List CacheOp :=
  if action.action = "profile_update" then
    let (st1, op) := invalidateUserCache st action.userId
    (st1, [op])
  else if action.action = "purchase" then
    let (st1, op1) := invalidateUserCache st action.userId
    let (st2, op2) := invalidateProductCache st1 (payloadGet action.data "productId")
    (st2, [op1, op2])
  else if action.action = "login" then
    ({ st with skipped := st.skipped + 1 }, [])
  else
    ({ st with skipped := st.skipped + 1 }, [])

/-! ### Audit consumer -/

/-- `AuditConsumer.generateLogId` as a function of its two observations:
the decimal rendering of `Date.now()` and the random base-36 suffix
`Math.random().toString(36).substr(2, 9)`. -/
def generateLogId (now rand : String) : String :=
  "AUDIT-" ++ now ++ "-" ++ rand

/-- `AuditConsumer.getComplianceFlags`: start from `["LOGGED"]` and push
per-kind flags. -/
def getComplianceFlags (action : Message) : List String :=
  let flags := ["LOGGED"]
  let flags := if action.action = "purchase" then flags ++ ["FINANCIAL_RECORD"] else flags
  let flags := if action.action = "profile_update" then flags ++ ["PII_CHANGE", "GDPR"] else flags
  if action.action = "login" then flags ++ ["SECURITY_EVENT"] else flags

/-- The audit entry `AuditConsumer.logAction` builds for an action. -/
structure AuditEntry where
  logId : String
  action : String
  userId : String
  timestamp : String
  data : Payload
  compliance : List String
deriving DecidableEq, Repr

/-- Entry construction inside `AuditConsumer.logAction`. -/
def mkAuditEntry (logId : String) (action : Message) : AuditEntry :=
  { logId := logId, action := action.action, userId := action.userId,
    timestamp := action.timestamp, data := action.data,
    compliance := getComplianceFlags action }

/-! ### Audit record store (the single JSON file `audit-log.json`) -/

/-- Comma-separated JSON string literals (without the brackets). -/
def encStrItems : List String → List Char
  | [] => []
  | s :: rest =>
    encString s ++ (if rest.isEmpty then [] else ',' :: encStrItems rest)

/-- JSON array of strings (the `compliance` field). -/
def encStrArray (l : List String) : List Char := '[' :: encStrItems l ++ [']']

/-- JSON object for one audit entry, in the key order `logAction`
constructs the record. -/
def encEntry (e : AuditEntry) : List Char :=
  '{' :: (encString "logId" ++ ':' :: encString e.logId
    ++ ',' :: encString "action" ++ ':' :: encString e.action
    ++ ',' :: encString "userId" ++ ':' :: encString e.userId
    ++ ',' :: encString "timestamp" ++ ':' :: encString e.timestamp
    ++ ',' :: encString "data" ++ ':' :: encPayload e.data
    ++ ',' :: encString "compliance" ++ ':' :: encStrArray e.compliance) ++ ['}']

/-- Comma-separated audit entries (without the brackets). -/
def encEntryItems : List AuditEntry → List Char
  | [] => []
  | e :: rest =>
    encEntry e ++ (if rest.isEmpty then [] else ',' :: encEntryItems rest)

/-- File content `JSON.stringify(logs)` for the audit log (compact
form; the source passes an indent of 2, which only inserts whitespace
none of the verified properties depend on). -/
def encLogs (l : List AuditEntry) : List Char := '[' :: encEntryItems l ++ [']']

/-- Parse the items of a nonempty JSON string array, consuming the
closing bracket. -/
def parseStrItems (fuel : Nat) (cs : List Char) : Option (List String × List Char) :=
  match fuel with
  | 0 => none
  | f + 1 =>
    match parseString cs with
    | none => none
    | some (s, r1) =>
      match r1 with
      | [] => none
      | c :: r2 =>
        if c = ',' then
          match parseStrItems f r2 with
          | some (l, r3) => some (⟨s⟩ :: l, r3)
          | none => none
        else if c = ']' then some ([⟨s⟩], r2)
        else none

/-- Parse a JSON array of strings, consuming the closing bracket. -/
def parseStrArray (fuel : Nat) (cs : List Char) : Option (List String × List Char) :=
  match cs with
  | [] => none
  | c :: rest =>
    if c = '[' then
      match rest with
      | [] => none
      | d :: rest2 => if d = ']' then some ([], rest2) else parseStrItems fuel rest
    else none

/-- Parse one audit-entry object from the stored log document. -/
def parseEntry (fuel : Nat) (cs : List Char) : Option (AuditEntry × List Char) :=
  match expectChars ('{' :: (encString "logId" ++ [':'])) cs with
  | none => none
  | some r0 =>
    match parseString r0 with
    | none => none
    | some (lid, r1) =>
      match expectChars (',' :: (encString "action" ++ [':'])) r1 with
      | none => none
      | some r2 =>
        match parseString r2 with
        | none => none
        | some (a, r3) =>
          match expectChars (',' :: (encString "userId" ++ [':'])) r3 with
          | none => none
          | some r4 =>
            match parseString r4 with
            | none => none
            | some (u, r5) =>
              match expectChars (',' :: (encString "timestamp" ++ [':'])) r5 with
              | none => none
              | some r6 =>
                match parseString r6 with
                | none => none
                | some (t, r7) =>
                  match expectChars (',' :: (encString "data" ++ [':'])) r7 with
                  | none => none
                  | some r8 =>
                    match parsePayload fuel r8 with
                    | none => none
                    | some (p, r9) =>
                      match expectChars (',' :: (encString "compliance" ++ [':'])) r9 with
                      | none => none
                      | some r10 =>
                        match parseStrArray fuel r10 with
                        | none => none
                        | some (fl, r11) =>
                          match r11 with
                          | [] => none
                          | c :: r12 =>
                            if c = '}' then
                              some ({ logId := ⟨lid⟩, action := ⟨a⟩, userId := ⟨u⟩,
                                      timestamp := ⟨t⟩, data := p, compliance := fl }, r12)
                            else none

/-- Parse the items of a nonempty JSON array of audit entries, consuming
the closing bracket.  `big` is the ambient fuel for the nested payload
and compliance arrays; `fuel` bounds the number of items. -/
def parseEntryItems (big fuel : Nat) (cs : List Char) :
    Option (List AuditEntry × List Char) :=
  match fuel with
  | 0 => none
  | f + 1 =>
    match parseEntry big cs with
    | none => none
    | some (e, r1) =>
      match r1 with
      | [] => none
      | c :: r2 =>
        if c = ',' then
          match parseEntryItems big f r2 with
          | some (l, r3) => some (e :: l, r3)
          | none => none
        else if c = ']' then some ([e], r2)
        else none

/-- Parse of the stored audit-log document: `JSON.parse(data)` restricted
to the array-of-entries shape this store writes, with the whole-document
requirement of `JSON.parse` (no trailing content). -/
def parseLogs (cs : List Char) : Option (List AuditEntry) :=
  match cs with
  | [] => none
  | c :: rest =>
    if c = '[' then
      match rest with
      | [] => none
      | d :: rest2 =>
        if d = ']' then (if rest2.isEmpty then some [] else none)
        else
          match parseEntryItems (cs.length + 1) (cs.length + 1) rest with
          | some (l, r) => if r.isEmpty then some l else none
          | none => none
    else none

/-- State of the audit-log file on disk. -/
inductive FileState where
  | absent : FileState
  | stored : List Char → FileState
deriving DecidableEq

/-- `fs.readFile`: the content, or a failure when the file is absent. -/
def fileRead : FileState → Option (List Char)
  | .absent => none
  | .stored c => some c

/-- Outcome of one underlying `fs.writeFile` call.  Modelled from the
spec: the store is rewritten on append and a write may fail; a partial
write leaves a prefix of the new content in place (spec section 4.4
"partial writes", section 6 "rewritten-on-append"). -/
inductive WriteOutcome where
  | ok : WriteOutcome
  | failCleanly : WriteOutcome
  | failPartial : Nat → WriteOutcome
deriving DecidableEq

/-- `fs.writeFile target`: the resulting file state and the error thrown,
if any.  A clean failure leaves the old state; a partial failure leaves
the first `k` characters of the new content. -/
def fsWriteFile (target : List Char) (fs : FileState) : WriteOutcome → FileState × Option String
  | .ok => (.stored target, none)
  | .failCleanly => (fs, some "EIO")
  | .failPartial k => (.stored (target.take k), some "EIO")

/-- The collection of entries a read of the store observes: the inner
`try` of `writeToFile` — a read or parse failure starts from the empty
collection. -/
def readLogs (fs : FileState) : List AuditEntry :=
  match fileRead fs with
  | none => []
  | some c => (parseLogs c).getD []

/-- The `try` block of `AuditConsumer.writeToFile` without the outer
catch: read-modify-write of the whole log document; the write error, if
any, escapes. -/
def writeToFileBody (entry : AuditEntry) (fs : FileState) (w : WriteOutcome) :
    FileState × Except String Unit :=
  let logs := readLogs fs
  let newLogs := logs ++ [entry]
  let (fs2, err) := fsWriteFile (encLogs newLogs) fs w
  (fs2, match err with | none => .ok () | some e => .error e)

/-- `AuditConsumer.writeToFile`: the body wrapped in the outer catch,
which converts any persistence failure into a logged warning (the
returned flag) and never rethrows. -/
def writeToFile (entry : AuditEntry) (fs : FileState) (w : WriteOutcome) :
    FileState × Bool :=
  match writeToFileBody entry fs w with
  | (fs2, .ok _) => (fs2, false)
  | (fs2, .error _) => (fs2, true)

/-- `AuditConsumer.logAction`: build the audit entry and persist it;
completes for every outcome because `writeToFile` never throws. -/
def logAction (action : Message) (logId : String) (fs : FileState) (w : WriteOutcome) :
    FileState × Bool :=
  writeToFile (mkAuditEntry logId action) fs w

/-- The audit consumer's `consume` callback for one delivery: parse,
`logAction`, then acknowledge.  Returns the file state and whether the
delivery was acknowledged. -/
def auditConsume (wire : List Char) (logId : String) (fs : FileState)
    (w : WriteOutcome) : FileState × Bool :=
  match parseMessage wire with
  | none => (fs, false)
  | some m => ((logAction m logId fs w).1, true)

/-! ### Serialization round-trip lemmas -/

theorem string_mk_data (s : String) : String.mk s.data = s := by
  cases s
  rfl

theorem expectChars_append (pat rest : List Char) :
    expectChars pat (pat ++ rest) = some rest := by
  induction pat with
  | nil => rfl
  | cons p ps ih => simp [expectChars, ih]

theorem parseStringBody_escList (l rest : List Char) :
    parseStringBody (escList l ++ '"' :: rest) = some (l, rest) := by
  induction l with
  | nil =>
    show parseStringBody ('"' :: rest) = some ([], rest)
    rw [parseStringBody.eq_def]
    simp
  | cons c t ih =>
    by_cases hq : c = '"'
    · subst hq
      show parseStringBody ('\\' :: '"' :: (escList t ++ '"' :: rest)) = _
      rw [parseStringBody.eq_def]
      simp [ih]
    · by_cases hb : c = '\\'
      · subst hb
        show parseStringBody ('\\' :: '\\' :: (escList t ++ '"' :: rest)) = _
        rw [parseStringBody.eq_def]
        simp [ih]
      · have hstep : escList (c :: t) ++ '"' :: rest = c :: (escList t ++ '"' :: rest) := by
          simp [escList, escChar, hq, hb]
        rw [hstep, parseStringBody.eq_def]
        simp [hq, hb, ih]

theorem parseString_encString (s : String) (rest : List Char) :
    parseString (encString s ++ rest) = some (s.data, rest) := by
  have : encString s ++ rest = '"' :: (escList s.data ++ '"' :: rest) := by
    simp [encString]
  rw [this]
  simp [parseString, parseStringBody_escList]

theorem charVal_digitChar (n : Nat) (h : n < 10) : charVal (digitChar n) = n := by
  interval_cases n <;> rfl

theorem isDigit_digitChar (n : Nat) (h : n < 10) : (digitChar n).isDigit = true := by
  interval_cases n <;> rfl

theorem natCharsAux_digits (fuel : Nat) : ∀ n, n < fuel →
    ∀ c ∈ natCharsAux fuel n, c.isDigit = true := by
  induction fuel with
  | zero => omega
  | succ f ih =>
    intro n hn c hc
    simp only [natCharsAux] at hc
    split at hc
    · next h10 =>
      simp at hc
      subst hc
      exact isDigit_digitChar n h10
    · next h10 =>
      rcases List.mem_append.1 hc with h1 | h1
      · have hdiv : n / 10 < n := Nat.div_lt_self (by omega) (by omega)
        exact ih (n / 10) (by omega) c h1
      · simp at h1
        subst h1
        exact isDigit_digitChar _ (Nat.mod_lt _ (by omega))

theorem natCharsAux_ne_nil (fuel : Nat) : ∀ n, n < fuel → natCharsAux fuel n ≠ [] := by
  induction fuel with
  | zero => omega
  | succ f ih =>
    intro n hn
    simp only [natCharsAux]
    split
    · simp
    · simp

theorem decodeDigits_append_singleton (l : List Char) (c : Char) :
    decodeDigits (l ++ [c]) = decodeDigits l * 10 + charVal c := by
  simp [decodeDigits, List.foldl_append]

theorem decodeDigits_natCharsAux (fuel : Nat) : ∀ n, n < fuel →
    decodeDigits (natCharsAux fuel n) = n := by
  induction fuel with
  | zero => omega
  | succ f ih =>
    intro n hn
    simp only [natCharsAux]
    split
    · next h10 =>
      simp [decodeDigits, List.foldl, charVal_digitChar n h10]
    · next h10 =>
      have hdiv : n / 10 < n := Nat.div_lt_self (by omega) (by omega)
      rw [decodeDigits_append_singleton, ih (n / 10) (by omega),
        charVal_digitChar _ (Nat.mod_lt _ (by omega))]
      omega

theorem decodeDigits_natToChars (n : Nat) : decodeDigits (natToChars n) = n :=
  decodeDigits_natCharsAux (n + 1) n (Nat.lt_succ_self n)

theorem natToChars_digits (n : Nat) : ∀ c ∈ natToChars n, c.isDigit = true :=
  natCharsAux_digits (n + 1) n (Nat.lt_succ_self n)

theorem natToChars_ne_nil (n : Nat) : natToChars n ≠ [] :=
  natCharsAux_ne_nil (n + 1) n (Nat.lt_succ_self n)

/-- The character right after a serialized value is never a digit. -/
def nonDigitHead : List Char → Prop
  | [] => True
  | c :: _ => c.isDigit = false

theorem takeDigits_append (ds rest : List Char) (hds : ∀ c ∈ ds, c.isDigit = true)
    (hrest : nonDigitHead rest) : takeDigits (ds ++ rest) = (ds, rest) := by
  induction ds with
  | nil =>
    cases rest with
    | nil => rfl
    | cons c t =>
      simp only [nonDigitHead] at hrest
      simp [takeDigits, hrest]
  | cons c t ih =>
    have hc := hds c (List.mem_cons_self c t)
    simp [takeDigits, hc, ih (fun d hd => hds d (List.mem_cons_of_mem c hd))]

theorem isDigit_ne_delims (c : Char) (h : c.isDigit = true) :
    c ≠ '"' ∧ c ≠ 'n' ∧ c ≠ 't' ∧ c ≠ 'f' ∧ c ≠ '-' := by
  refine ⟨?_, ?_, ?_, ?_, ?_⟩ <;> (rintro rfl; revert h; decide)

theorem parseScalar_enc (v : Scalar) (rest : List Char) (hrest : nonDigitHead rest) :
    parseScalar (encScalar v ++ rest) = some (v, rest) := by
  cases v with
  | null => simp [encScalar, parseScalar]
  | bool b => cases b <;> simp [encScalar, parseScalar]
  | str s =>
    have : encScalar (.str s) ++ rest = '"' :: (escList s.data ++ '"' :: rest) := by
      simp [encScalar, encString]
    rw [this]
    simp [parseScalar, parseStringBody_escList, string_mk_data]
  | num n =>
    cases n with
    | ofNat m =>
      obtain ⟨c, ds, hcd⟩ : ∃ c ds, natToChars m = c :: ds := by
        cases h : natToChars m with
        | nil => exact absurd h (natToChars_ne_nil m)
        | cons c ds => exact ⟨c, ds, rfl⟩
      have hc : c.isDigit = true := natToChars_digits m c (by rw [hcd]; exact List.mem_cons_self c ds)
      have hds : ∀ d ∈ ds, d.isDigit = true := fun d hd =>
        natToChars_digits m d (by rw [hcd]; exact List.mem_cons_of_mem c hd)
      obtain ⟨h1, h2, h3, h4, h5⟩ := isDigit_ne_delims c hc
      have henc : encScalar (.num (Int.ofNat m)) ++ rest = c :: (ds ++ rest) := by
        simp [encScalar, intToChars, hcd]
      rw [henc]
      simp only [parseScalar, if_neg h1, if_neg h2, if_neg h3, if_neg h4, if_neg h5, hc,
        if_pos rfl, if_true, takeDigits_append ds rest hds hrest]
      have : decodeDigits (c :: ds) = m := by rw [← hcd]; exact decodeDigits_natToChars m
      simp [this]
    | negSucc m =>
      obtain ⟨c, ds, hcd⟩ : ∃ c ds, natToChars (m + 1) = c :: ds := by
        cases h : natToChars (m + 1) with
        | nil => exact absurd h (natToChars_ne_nil (m + 1))
        | cons c ds => exact ⟨c, ds, rfl⟩
      have hds : ∀ d ∈ natToChars (m + 1), d.isDigit = true := natToChars_digits (m + 1)
      have henc : encScalar (.num (Int.negSucc m)) ++ rest =
          '-' :: (natToChars (m + 1) ++ rest) := by
        simp [encScalar, intToChars]
      rw [henc]
      have hstep : parseScalar ('-' :: (natToChars (m + 1) ++ rest)) =
          match takeDigits (natToChars (m + 1) ++ rest) with
          | ([], _) => none
          | (ds, r) => some (.num (-(decodeDigits ds : Int)), r) := by
        simp [parseScalar]
      rw [hstep, takeDigits_append (natToChars (m + 1)) rest hds hrest, hcd]
      have hdec : decodeDigits (c :: ds) = m + 1 := by
        rw [← hcd]
        exact decodeDigits_natToChars (m + 1)
      simp [hdec, Int.negSucc_eq]

theorem nonDigitHead_cons (c : Char) (rest : List Char) (h : c.isDigit = false) :
    nonDigitHead (c :: rest) := h

theorem parseMembers_enc (p : Payload) : ∀ (fuel : Nat) (rest : List Char),
    p ≠ [] → p.length < fuel →
    parseMembers fuel (encMembers p ++ '}' :: rest) = some (p, rest) := by
  induction p with
  | nil => intro fuel rest hne _; exact absurd rfl hne
  | cons kv t ih =>
    intro fuel rest _ hfuel
    obtain ⟨k, v⟩ := kv
    cases fuel with
    | zero => omega
    | succ f =>
      cases t with
      | nil =>
        have h1 : encMembers [(k, v)] ++ '}' :: rest =
            encString k ++ ':' :: (encScalar v ++ '}' :: rest) := by
          simp [encMembers]
        rw [h1, parseMembers.eq_def]
        simp only [parseString_encString,
          parseScalar_enc v ('}' :: rest) (nonDigitHead_cons _ _ (by decide))]
        simp [string_mk_data]
      | cons kv2 t2 =>
        have h1 : encMembers ((k, v) :: kv2 :: t2) ++ '}' :: rest =
            encString k ++ ':' :: (encScalar v ++
              ',' :: (encMembers (kv2 :: t2) ++ '}' :: rest)) := by
          simp [encMembers]
        rw [h1, parseMembers.eq_def]
        simp only [parseString_encString,
          parseScalar_enc v (',' :: (encMembers (kv2 :: t2) ++ '}' :: rest))
            (nonDigitHead_cons _ _ (by decide))]
        have h2 := ih f rest (by simp) (by simp at hfuel ⊢; omega)
        simp [h2, string_mk_data]

theorem parsePayload_enc (p : Payload) (fuel : Nat) (rest : List Char)
    (hfuel : p.length < fuel) :
    parsePayload fuel (encPayload p ++ rest) = some (p, rest) := by
  cases p with
  | nil =>
    have h1 : encPayload [] ++ rest = '{' :: '}' :: rest := by simp [encPayload, encMembers]
    rw [h1, parsePayload.eq_def]
    simp
  | cons kv t =>
    obtain ⟨k, v⟩ := kv
    have h1 : encPayload ((k, v) :: t) ++ rest =
        '{' :: (encMembers ((k, v) :: t) ++ '}' :: rest) := by
      simp [encPayload]
    obtain ⟨Y, hY⟩ : ∃ Y, encMembers ((k, v) :: t) ++ '}' :: rest = '"' :: Y := by
      refine ⟨escList k.data ++ '"' :: (':' :: encScalar v ++
        (if t.isEmpty then [] else ',' :: encMembers t) ++ '}' :: rest), ?_⟩
      simp [encMembers, encString]
    rw [h1, parsePayload.eq_def]
    rw [hY]
    simp only [if_pos rfl]
    have hne : ('"' : Char) = '}' ↔ False := by simp
    simp only [reduceIte, hne, if_false]
    rw [← hY]
    exact parseMembers_enc ((k, v) :: t) fuel rest (by simp) hfuel

theorem length_encString_ge (s : String) : 2 ≤ (encString s).length := by
  simp [encString]

theorem length_encMembers_ge (p : Payload) : p.length ≤ (encMembers p).length := by
  induction p with
  | nil => simp [encMembers]
  | cons kv t ih =>
    obtain ⟨k, v⟩ := kv
    have hk := length_encString_ge k
    cases t with
    | nil => simp [encMembers]; omega
    | cons kv2 t2 =>
      simp only [encMembers, List.isEmpty_cons] at ih ⊢
      simp [List.length_append] at ih ⊢
      omega

theorem length_encPayload_ge (p : Payload) : p.length + 2 ≤ (encPayload p).length := by
  have := length_encMembers_ge p
  simp [encPayload]
  omega

theorem parseMessage_enc (m : Message) : parseMessage (encMessage m) = some m := by
  have henc : encMessage m =
      ('{' :: (encString "action" ++ [':'])) ++ (encString m.action ++
        ((',' :: (encString "userId" ++ [':'])) ++ (encString m.userId ++
          ((',' :: (encString "timestamp" ++ [':'])) ++ (encString m.timestamp ++
            ((',' :: (encString "data" ++ [':'])) ++ (encPayload m.data ++ ['}']))))))) := by
    simp [encMessage]
  rw [parseMessage, henc]
  rw [expectChars_append]
  simp only [parseString_encString]
  rw [expectChars_append]
  simp only [parseString_encString]
  rw [expectChars_append]
  simp only [parseString_encString]
  rw [expectChars_append]
  have hfuel : m.data.length < (encPayload m.data).length + 1 + 1 := by
    have := length_encPayload_ge m.data
    omega
  have hp := parsePayload_enc m.data ((encPayload m.data).length + 1 + 1) ['}'] hfuel
  simp [hp, string_mk_data]

theorem parseStrItems_enc (ss : List String) : ∀ (fuel : Nat) (rest : List Char),
    ss ≠ [] → ss.length < fuel →
    parseStrItems fuel (encStrItems ss ++ ']' :: rest) = some (ss, rest) := by
  induction ss with
  | nil => intro fuel rest hne _; exact absurd rfl hne
  | cons s t ih =>
    intro fuel rest _ hfuel
    cases fuel with
    | zero => omega
    | succ f =>
      cases t with
      | nil =>
        have h1 : encStrItems [s] ++ ']' :: rest = encString s ++ ']' :: rest := by
          simp [encStrItems]
        rw [h1, parseStrItems.eq_def]
        simp only [parseString_encString]
        simp [string_mk_data]
      | cons s2 t2 =>
        have h1 : encStrItems (s :: s2 :: t2) ++ ']' :: rest =
            encString s ++ ',' :: (encStrItems (s2 :: t2) ++ ']' :: rest) := by
          simp [encStrItems]
        rw [h1, parseStrItems.eq_def]
        simp only [parseString_encString]
        have h2 := ih f rest (by simp) (by simp at hfuel ⊢; omega)
        simp [h2, string_mk_data]

theorem parseStrArray_enc (ss : List String) (fuel : Nat) (rest : List Char)
    (hfuel : ss.length < fuel) :
    parseStrArray fuel (encStrArray ss ++ rest) = some (ss, rest) := by
  cases ss with
  | nil =>
    have h1 : encStrArray [] ++ rest = '[' :: ']' :: rest := by simp [encStrArray, encStrItems]
    rw [h1, parseStrArray.eq_def]
    simp
  | cons s t =>
    have h1 : encStrArray (s :: t) ++ rest =
        '[' :: (encStrItems (s :: t) ++ ']' :: rest) := by
      simp [encStrArray]
    obtain ⟨Y, hY⟩ : ∃ Y, encStrItems (s :: t) ++ ']' :: rest = '"' :: Y := by
      refine ⟨escList s.data ++ '"' :: ((if t.isEmpty then [] else ',' :: encStrItems t) ++
        ']' :: rest), ?_⟩
      simp [encStrItems, encString]
    rw [h1, parseStrArray.eq_def]
    rw [hY]
    simp only [if_pos rfl]
    have hne : ('"' : Char) = ']' ↔ False := by simp
    simp only [reduceIte, hne, if_false]
    rw [← hY]
    exact parseStrItems_enc (s :: t) fuel rest (by simp) hfuel

theorem parseEntry_enc (e : AuditEntry) (fuel : Nat) (rest : List Char)
    (hdata : e.data.length < fuel) (hcomp : e.compliance.length < fuel) :
    parseEntry fuel (encEntry e ++ rest) = some (e, rest) := by
  have henc : encEntry e ++ rest =
      ('{' :: (encString "logId" ++ [':'])) ++ (encString e.logId ++
        ((',' :: (encString "action" ++ [':'])) ++ (encString e.action ++
          ((',' :: (encString "userId" ++ [':'])) ++ (encString e.userId ++
            ((',' :: (encString "timestamp" ++ [':'])) ++ (encString e.timestamp ++
              ((',' :: (encString "data" ++ [':'])) ++ (encPayload e.data ++
                ((',' :: (encString "compliance" ++ [':'])) ++ (encStrArray e.compliance ++
                  '}' :: rest))))))))))) := by
    simp [encEntry]
  rw [parseEntry, henc]
  rw [expectChars_append]
  simp only [parseString_encString]
  rw [expectChars_append]
  simp only [parseString_encString]
  rw [expectChars_append]
  simp only [parseString_encString]
  rw [expectChars_append]
  simp only [parseString_encString]
  rw [expectChars_append]
  have hp := parsePayload_enc e.data fuel
    ((',' :: (encString "compliance" ++ [':'])) ++ (encStrArray e.compliance ++ '}' :: rest))
    hdata
  simp only [hp]
  rw [expectChars_append]
  have ha := parseStrArray_enc e.compliance fuel ('}' :: rest) hcomp
  simp [ha, string_mk_data]

theorem parseEntryItems_enc (l : List AuditEntry) : ∀ (big fuel : Nat) (rest : List Char),
    l ≠ [] → l.length < fuel →
    (∀ e ∈ l, e.data.length < big ∧ e.compliance.length < big) →
    parseEntryItems big fuel (encEntryItems l ++ ']' :: rest) = some (l, rest) := by
  induction l with
  | nil => intro big fuel rest hne _ _; exact absurd rfl hne
  | cons e t ih =>
    intro big fuel rest _ hfuel hbig
    obtain ⟨hd, hc⟩ := hbig e (List.mem_cons_self e t)
    cases fuel with
    | zero => omega
    | succ f =>
      cases t with
      | nil =>
        have h1 : encEntryItems [e] ++ ']' :: rest = encEntry e ++ ']' :: rest := by
          simp [encEntryItems]
        rw [h1, parseEntryItems.eq_def]
        simp [parseEntry_enc e big (']' :: rest) hd hc]
      | cons e2 t2 =>
        have h1 : encEntryItems (e :: e2 :: t2) ++ ']' :: rest =
            encEntry e ++ ',' :: (encEntryItems (e2 :: t2) ++ ']' :: rest) := by
          simp [encEntryItems]
        rw [h1, parseEntryItems.eq_def]
        simp only [parseEntry_enc e big (',' :: (encEntryItems (e2 :: t2) ++ ']' :: rest)) hd hc]
        have h2 := ih big f rest (by simp) (by simp at hfuel ⊢; omega)
          (fun x hx => hbig x (List.mem_cons_of_mem e hx))
        simp [h2]

theorem length_encStrItems_ge (l : List String) : l.length ≤ (encStrItems l).length := by
  induction l with
  | nil => simp [encStrItems]
  | cons s t ih =>
    have hs := length_encString_ge s
    cases t with
    | nil => simp [encStrItems]; omega
    | cons s2 t2 =>
      simp only [encStrItems, List.isEmpty_cons] at ih ⊢
      simp [List.length_append] at ih ⊢
      omega

theorem length_encStrArray_ge (l : List String) : l.length + 2 ≤ (encStrArray l).length := by
  have := length_encStrItems_ge l
  simp [encStrArray]
  omega

theorem length_encEntry_ge_data (e : AuditEntry) :
    e.data.length + 2 ≤ (encEntry e).length := by
  have := length_encPayload_ge e.data
  simp [encEntry, List.length_append]
  omega

theorem length_encEntry_ge_compliance (e : AuditEntry) :
    e.compliance.length + 2 ≤ (encEntry e).length := by
  have := length_encStrArray_ge e.compliance
  simp [encEntry, List.length_append]
  omega

theorem length_encEntryItems_ge (l : List AuditEntry) :
    l.length ≤ (encEntryItems l).length := by
  induction l with
  | nil => simp [encEntryItems]
  | cons e t ih =>
    have he := length_encEntry_ge_data e
    cases t with
    | nil => simp [encEntryItems]; omega
    | cons e2 t2 =>
      simp only [encEntryItems, List.isEmpty_cons] at ih ⊢
      simp [List.length_append] at ih ⊢
      omega

theorem length_encEntry_le_items (e : AuditEntry) (l : List AuditEntry) (he : e ∈ l) :
    (encEntry e).length ≤ (encEntryItems l).length := by
  induction l with
  | nil => cases he
  | cons x t ih =>
    rcases List.mem_cons.1 he with h | h
    · subst h
      cases t with
      | nil => simp [encEntryItems]
      | cons e2 t2 => simp [encEntryItems, List.length_append]
    · have := ih h
      cases t with
      | nil => cases h
      | cons e2 t2 =>
        simp only [encEntryItems, List.isEmpty_cons] at this ⊢
        simp [List.length_append] at this ⊢
        omega

theorem parseLogs_enc (l : List AuditEntry) : parseLogs (encLogs l) = some l := by
  cases l with
  | nil =>
    have h1 : encLogs ([] : List AuditEntry) = ['[', ']'] := rfl
    rw [h1]
    decide
  | cons e t =>
    have h1 : encLogs (e :: t) = '[' :: (encEntryItems (e :: t) ++ ']' :: []) := by
      simp [encLogs]
    obtain ⟨Y, hY⟩ : ∃ Y, encEntryItems (e :: t) ++ ']' :: [] = '{' :: Y := by
      refine ⟨(encString "logId" ++ ':' :: encString e.logId
        ++ ',' :: encString "action" ++ ':' :: encString e.action
        ++ ',' :: encString "userId" ++ ':' :: encString e.userId
        ++ ',' :: encString "timestamp" ++ ':' :: encString e.timestamp
        ++ ',' :: encString "data" ++ ':' :: encPayload e.data
        ++ ',' :: encString "compliance" ++ ':' :: encStrArray e.compliance) ++ ['}'] ++
        ((if t.isEmpty then [] else ',' :: encEntryItems t) ++ ']' :: []), ?_⟩
      simp [encEntryItems, encEntry]
    have hlen : ∀ x ∈ e :: t, x.data.length < (encLogs (e :: t)).length + 1 ∧
        x.compliance.length < (encLogs (e :: t)).length + 1 := by
      intro x hx
      have h2 := length_encEntry_le_items x (e :: t) hx
      have h3 := length_encEntry_ge_data x
      have h4 := length_encEntry_ge_compliance x
      have h5 : (encLogs (e :: t)).length = (encEntryItems (e :: t)).length + 2 := by
        simp [encLogs]
      omega
    have hcount : (e :: t).length < (encLogs (e :: t)).length + 1 := by
      have h2 := length_encEntryItems_ge (e :: t)
      have h5 : (encLogs (e :: t)).length = (encEntryItems (e :: t)).length + 2 := by
        simp [encLogs]
      omega
    have hitems := parseEntryItems_enc (e :: t)
      (('[' :: (encEntryItems (e :: t) ++ ']' :: [])).length + 1)
      (('[' :: (encEntryItems (e :: t) ++ ']' :: [])).length + 1) [] (by simp)
      (by simpa [encLogs] using hcount) (by simpa [encLogs] using hlen)
    conv_lhs => rw [parseLogs.eq_def]
    rw [h1]
    rw [hY]
    simp only [if_pos rfl]
    have hne : ('\x7b' : Char) = ']' ↔ False := by simp
    simp only [reduceIte, hne, if_false]
    rw [← hY]
    rw [hitems]
    simp

/-! ### Helper lemmas about the broker fold and the consumers -/

theorem readLogs_stored_encLogs (l : List AuditEntry) :
    readLogs (.stored (encLogs l)) = l := by
  simp [readLogs, fileRead, parseLogs_enc]

theorem publishAll_queueBuf (evts : List PubReq) : ∀ (b : Broker) (q : String),
    (boundQueues exchangeName b).contains q = true →
    (publishAll evts b).queueBuf q
      = b.queueBuf q ++ evts.map (fun e => encMessage (mkMessage e)) := by
  induction evts with
  | nil => intro b q _; simp [publishAll]
  | cons e t ih =>
    intro b q h
    have hstep : publishAll (e :: t) b
        = publishAll t (brokerPublish exchangeName (encMessage (mkMessage e)) b) := rfl
    have hsame : boundQueues exchangeName
        (brokerPublish exchangeName (encMessage (mkMessage e)) b)
        = boundQueues exchangeName b := rfl
    rw [hstep, ih _ q (by rw [hsame]; exact h)]
    have hmem : q ∈ boundQueues exchangeName b := by simpa using h
    simp [brokerPublish, hmem]

theorem setup_bound (q : String) (hq : q ∈ configQueues) :
    (boundQueues exchangeName (setupExchange emptyBroker)).contains q = true := by
  fin_cases hq <;> decide

theorem foldl_processAction_login (ms : List Message) : ∀ s : Stats,
    (∀ x ∈ ms, x.action = "login") →
    (ms.foldl processAction s).total = s.total + ms.length ∧
    (ms.foldl processAction s).login = s.login + ms.length := by
  induction ms with
  | nil => intro s _; simp
  | cons m t ih =>
    intro s hall
    have hm := hall m (List.mem_cons_self m t)
    have hfold : (m :: t).foldl processAction s = t.foldl processAction (processAction s m) := rfl
    have hone : processAction s m = { s with login := s.login + 1, total := s.total + 1 } := by
      simp [processAction, statsHasOwnProperty, statsIncrField, hm]
    have h2 := ih (processAction s m) (fun x hx => hall x (List.mem_cons_of_mem m hx))
    rw [hfold, hone]
    rw [hone] at h2
    simp at h2 ⊢
    omega

theorem append_dash_inj (a : List Char) : ∀ (b s1 s2 : List Char),
    '-' ∉ a → '-' ∉ b → a ++ '-' :: s1 = b ++ '-' :: s2 → a = b ∧ s1 = s2 := by
  induction a with
  | nil =>
    intro b s1 s2 _ hb h
    cases b with
    | nil =>
      simp only [List.nil_append] at h
      exact ⟨rfl, (List.cons.injEq _ _ _ _ ▸ h).2⟩
    | cons c bt =>
      simp only [List.nil_append, List.cons_append, List.cons.injEq] at h
      rw [← h.1] at hb
      exact absurd (List.mem_cons_self '-' bt) hb
  | cons c at2 ih =>
    intro b s1 s2 ha hb h
    cases b with
    | nil =>
      simp only [List.nil_append, List.cons_append, List.cons.injEq] at h
      rw [h.1] at ha
      exact absurd (List.mem_cons_self '-' at2) ha
    | cons d bt =>
      simp only [List.cons_append, List.cons.injEq] at h
      have hrec := ih bt s1 s2 (fun hm => ha (List.mem_cons_of_mem c hm))
        (fun hm => hb (List.mem_cons_of_mem d hm)) h.2
      exact ⟨by rw [h.1, hrec.1], hrec.2⟩

theorem string_data_append (s t : String) : (s ++ t).data = s.data ++ t.data := rfl

/-! ### Concrete sample values used by witnesses and counterexamples -/

/-- The login event of the repository's test script. -/
def sampleMsg : Message :=
  { action := "login", userId := "alice123", timestamp := "2026-01-01T00:00:00.000Z",
    data := [("ipAddress", .str "192.168.1.100"), ("device", .str "iPhone Safari")] }

/-- A publish request corresponding to `sampleMsg`. -/
def sampleReq : PubReq :=
  { action := "login", userId := "alice123",
    data := some [("ipAddress", .str "192.168.1.100"), ("device", .str "iPhone Safari")],
    now := "2026-01-01T00:00:00.000Z" }

/-- Five rapid login events for distinct subjects, as in the test script. -/
def loginBurst : List Message :=
  [{ action := "login", userId := "user0", timestamp := "t0", data := [] },
   { action := "login", userId := "user1", timestamp := "t1", data := [] },
   { action := "login", userId := "user2", timestamp := "t2", data := [] },
   { action := "login", userId := "user3", timestamp := "t3", data := [] },
   { action := "login", userId := "user4", timestamp := "t4", data := [] }]

/-- A stored audit entry used by the store counterexample. -/
def auditEntry0 : AuditEntry :=
  { logId := "AUDIT-1-a1b2c3d4e", action := "login", userId := "alice123",
    timestamp := "t1", data := [], compliance := ["LOGGED", "SECURITY_EVENT"] }

/-- A second audit entry whose append fails in the store counterexample. -/
def auditEntry1 : AuditEntry :=
  { logId := "AUDIT-2-f5g6h7i8j", action := "purchase", userId := "bob456",
    timestamp := "t2", data := [("productId", .str "LAPTOP-001")],
    compliance := ["LOGGED", "FINANCIAL_RECORD"] }

/-! ### Claim theorems -/

/-- C1: every event published through `ActionPublisher.publishAction` to
the fanout topology created by `setupExchange` reaches each bound queue
exactly once per publish — after a burst of publishes each of the K = 4
bound queues buffers exactly the list of serialized events, one copy per
publish, in publish order — and the copy a consumer parses is
structurally identical to the record the publisher serialized: the
serialize/deliver/parse round trip leaves action, userId, timestamp and
data unchanged. -/
theorem fanout_copy_count_and_roundtrip (evts : List PubReq) (q : String)
    (hq : q ∈ configQueues) :
    (publishAll evts (setupExchange emptyBroker)).queueBuf q
      = evts.map (fun e => encMessage (mkMessage e)) ∧
    ∀ e : PubReq, parseMessage (encMessage (mkMessage e)) = some (mkMessage e) := by
  constructor
  · have h := publishAll_queueBuf evts (setupExchange emptyBroker) q (setup_bound q hq)
    have h0 : (setupExchange emptyBroker).queueBuf q = [] := rfl
    rw [h, h0]
    simp
  · intro e
    exact parseMessage_enc (mkMessage e)

set_option maxRecDepth 100000 in
/-- Witness for the fanout copy-count and round-trip theorem: the audit
queue after one concrete publish. -/
theorem fanout_copy_count_and_roundtrip_witness :
    "audit.queue" ∈ configQueues ∧
    ((publishAll [sampleReq] (setupExchange emptyBroker)).queueBuf "audit.queue"
      = [sampleReq].map (fun e => encMessage (mkMessage e)) ∧
    ∀ e : PubReq, parseMessage (encMessage (mkMessage e)) = some (mkMessage e)) :=
  ⟨by decide, fanout_copy_count_and_roundtrip [sampleReq] "audit.queue" (by decide)⟩

/-- C10: `publishAction` called without a data argument publishes an
event whose payload is the empty object, and every call returns exactly
the record `{action, userId, timestamp, data}` whose JSON serialization
was handed to the channel (that serialization parses back to the very
same record). -/
theorem publishAction_default_and_return (a u now : String) (b : Broker) :
    (publishAction a u none now b).1
      = { action := a, userId := u, timestamp := now, data := [] } ∧
    (∀ d : Option Payload, (publishAction a u d now b).2
      = brokerPublish exchangeName (encMessage ((publishAction a u d now b).1)) b) ∧
    (∀ d : Option Payload,
      parseMessage (encMessage ((publishAction a u d now b).1))
        = some ((publishAction a u d now b).1)) :=
  ⟨rfl, fun _ => rfl, fun _ => parseMessage_enc _⟩

/-- C2: in the consume-callback shape shared by all four consumer
runtimes (Analytics, Notification, Audit, CacheInvalidator), a delivered
message is acknowledged exactly when the policy handler returns
successfully on the parsed event; if the handler raises, the runtime does
not acknowledge, so the event remains redeliverable. -/
theorem ack_iff_handler_success {σ : Type} (handle : σ → Message → Except String σ)
    (st : σ) (wire : List Char) :
    ((consumeStep handle st wire).2 = true ↔
      ∃ m st2, parseMessage wire = some m ∧ handle st m = .ok st2) ∧
    (∀ m err, parseMessage wire = some m → handle st m = .error err →
      consumeStep handle st wire = (st, false)) := by
  constructor
  · constructor
    · intro h
      unfold consumeStep at h
      cases hp : parseMessage wire with
      | none => rw [hp] at h; simp at h
      | some m =>
        rw [hp] at h
        simp only at h
        cases hh : handle st m with
        | ok st2 => exact ⟨m, st2, rfl, hh⟩
        | error err => rw [hh] at h; simp at h
    · rintro ⟨m, st2, hp, hh⟩
      unfold consumeStep
      rw [hp]
      simp [hh]
  · intro m err hp hh
    unfold consumeStep
    rw [hp]
    simp [hh]

set_option maxRecDepth 100000 in
/-- Witness for the acknowledgment theorem: a handler that throws on a
concrete delivered wire leaves the message unacknowledged. -/
theorem ack_iff_handler_success_witness :
    parseMessage (encMessage sampleMsg) = some sampleMsg ∧
    (fun (_ : Nat) (_ : Message) => (Except.error "boom" : Except String Nat)) 0 sampleMsg
      = Except.error "boom" ∧
    consumeStep (fun (_ : Nat) (_ : Message) => (Except.error "boom" : Except String Nat)) 0
      (encMessage sampleMsg) = (0, false) :=
  ⟨by decide, rfl,
    (ack_iff_handler_success (fun _ _ => Except.error "boom") 0 (encMessage sampleMsg)).2
      sampleMsg "boom" (by decide) rfl⟩

/-- C3: `getComplianceFlags` is a deterministic, pure function of the
event's action kind alone: login maps to {LOGGED, SECURITY_EVENT},
purchase to {LOGGED, FINANCIAL_RECORD}, profile_update to
{LOGGED, PII_CHANGE, GDPR}, and every other kind to exactly {LOGGED}. -/
theorem getComplianceFlags_spec (m m2 : Message) :
    (m.action = m2.action → getComplianceFlags m = getComplianceFlags m2) ∧
    (m.action = "login" → getComplianceFlags m = ["LOGGED", "SECURITY_EVENT"]) ∧
    (m.action = "purchase" → getComplianceFlags m = ["LOGGED", "FINANCIAL_RECORD"]) ∧
    (m.action = "profile_update" →
      getComplianceFlags m = ["LOGGED", "PII_CHANGE", "GDPR"]) ∧
    (m.action ≠ "login" → m.action ≠ "purchase" → m.action ≠ "profile_update" →
      getComplianceFlags m = ["LOGGED"]) := by
  refine ⟨?_, ?_, ?_, ?_, ?_⟩
  · intro h
    simp [getComplianceFlags, h]
  · intro h
    simp [getComplianceFlags, h]
  · intro h
    simp [getComplianceFlags, h]
  · intro h
    simp [getComplianceFlags, h]
  · intro h1 h2 h3
    simp [getComplianceFlags, h1, h2, h3]

/-- Witness for the compliance-flags theorem at a concrete login event. -/
theorem getComplianceFlags_spec_witness :
    sampleMsg.action = "login" ∧
    getComplianceFlags sampleMsg = ["LOGGED", "SECURITY_EVENT"] :=
  ⟨rfl, (getComplianceFlags_spec sampleMsg sampleMsg).2.1 rfl⟩

/-- C4 counterexample: a purchase event with no `productId` in its payload
still performs the product-cache invalidation call — with the absent
marker (JS `undefined`) as the product id — and increments the
invalidated counter by 2, not by 1; the claim's "else subject cache only"
branch does not exist in the code (the runtime does not crash, though). -/
theorem invalidateCache_missing_productId :
    invalidateCache { invalidated := 0, skipped := 0 }
        { action := "purchase", userId := "bob456", timestamp := "t", data := [] }
      = ({ invalidated := 2, skipped := 0 },
          [CacheOp.user "bob456", CacheOp.product none]) := by
  decide

/-- C4 (amended): `login` performs no invalidation and increments the
skipped counter by 1 (as does any unmatched kind); `profile_update`
invalidates exactly the subject cache; `purchase` always invalidates the
subject cache and then the product cache, passing along whatever
`payload.productId` holds — the absent marker when the field is missing,
without crashing the runtime; and the invalidated counter increments by
exactly 1 per invalidation call made. -/
theorem invalidateCache_behavior (st : CacheStats) (m : Message) :
    invalidateCache st m =
      (if m.action = "profile_update" then
        ({ st with invalidated := st.invalidated + 1 }, [CacheOp.user m.userId])
      else if m.action = "purchase" then
        ({ st with invalidated := st.invalidated + 2 },
          [CacheOp.user m.userId, CacheOp.product (payloadGet m.data "productId")])
      else ({ st with skipped := st.skipped + 1 }, [])) ∧
    (invalidateCache st m).1.invalidated
      = st.invalidated + ((invalidateCache st m).2).length := by
  have hmain : invalidateCache st m =
      (if m.action = "profile_update" then
        ({ st with invalidated := st.invalidated + 1 }, [CacheOp.user m.userId])
      else if m.action = "purchase" then
        ({ st with invalidated := st.invalidated + 2 },
          [CacheOp.user m.userId, CacheOp.product (payloadGet m.data "productId")])
      else ({ st with skipped := st.skipped + 1 }, [])) := by
    by_cases h1 : m.action = "profile_update"
    · simp [invalidateCache, invalidateUserCache, h1]
    · by_cases h2 : m.action = "purchase"
      · simp [invalidateCache, invalidateUserCache, invalidateProductCache, h1, h2]
      · by_cases h3 : m.action = "login"
        · simp [invalidateCache, h1, h2, h3]
        · simp [invalidateCache, h1, h2, h3]
  refine ⟨hmain, ?_⟩
  rw [hmain]
  split_ifs <;> simp

/-- C5 counterexample: an event whose action kind is the string "total"
hits the `hasOwnProperty` guard (the stats object owns the key `total`),
so `processAction` increments the total counter twice — the total counter
does not increase by exactly 1 for every event. -/
theorem processAction_total_key :
    processAction { login := 0, purchase := 0, profile_update := 0, total := 0 }
        { action := "total", userId := "u", timestamp := "t", data := [] }
      = { login := 0, purchase := 0, profile_update := 0, total := 2 } := by
  decide

/-- C5 (amended): for every event whose action kind is not the literal
key "total", `processAction` increases the total counter by exactly 1;
the per-kind counter additionally increases by 1 when the kind is login,
purchase or profile_update; for any other unrecognized kind only the
total counter changes; an event with kind "total" increases the total
counter by 2; and any sequence of login events increases total by exactly
its length (so 5 rapid logins add exactly 5). -/
theorem processAction_counters (s : Stats) (m : Message) (ms : List Message) :
    (m.action ≠ "total" → (processAction s m).total = s.total + 1) ∧
    (m.action = "login" →
      processAction s m = { s with login := s.login + 1, total := s.total + 1 }) ∧
    (m.action = "purchase" →
      processAction s m = { s with purchase := s.purchase + 1, total := s.total + 1 }) ∧
    (m.action = "profile_update" →
      processAction s m
        = { s with profile_update := s.profile_update + 1, total := s.total + 1 }) ∧
    (statsHasOwnProperty m.action = false →
      processAction s m = { s with total := s.total + 1 }) ∧
    (m.action = "total" → processAction s m = { s with total := s.total + 2 }) ∧
    ((∀ x ∈ ms, x.action = "login") →
      (ms.foldl processAction s).total = s.total + ms.length) := by
  refine ⟨?_, ?_, ?_, ?_, ?_, ?_, fun h => (foldl_processAction_login ms s h).1⟩
  · intro h
    by_cases h1 : m.action = "login"
    · simp [processAction, statsHasOwnProperty, statsIncrField, h1]
    · by_cases h2 : m.action = "purchase"
      · simp [processAction, statsHasOwnProperty, statsIncrField, h1, h2]
      · by_cases h3 : m.action = "profile_update"
        · simp [processAction, statsHasOwnProperty, statsIncrField, h1, h2, h3]
        · simp [processAction, statsHasOwnProperty, statsIncrField, h1, h2, h3, h]
  · intro h
    simp [processAction, statsHasOwnProperty, statsIncrField, h]
  · intro h
    simp [processAction, statsHasOwnProperty, statsIncrField, h]
  · intro h
    simp [processAction, statsHasOwnProperty, statsIncrField, h]
  · intro h
    simp [processAction, h]
  · intro h
    simp [processAction, statsHasOwnProperty, statsIncrField, h]

/-- Witness for the analytics-counter theorem: five concrete login events
drive the total counter from 0 to 5. -/
theorem processAction_counters_witness :
    (∀ x ∈ loginBurst, x.action = "login") ∧
    (loginBurst.foldl processAction
      { login := 0, purchase := 0, profile_update := 0, total := 0 }).total
      = 0 + loginBurst.length :=
  ⟨by decide,
    (processAction_counters { login := 0, purchase := 0, profile_update := 0, total := 0 }
      sampleMsg loginBurst).2.2.2.2.2.2 (by decide)⟩

set_option maxRecDepth 1000000 in
/-- C6 counterexample: from a store holding one previously appended entry,
a partial write (here: one character of the new document) leaves content a
subsequent read cannot parse, and the read-side recovery treats it as the
empty collection — the previously appended entry is lost, so the store
does not retain the previous valid snapshot on a write failure. -/
theorem auditStore_partial_write_loss :
    readLogs (.stored (encLogs [auditEntry0])) = [auditEntry0] ∧
    readLogs ((writeToFile auditEntry1
      (.stored (encLogs [auditEntry0])) (.failPartial 1)).1) = [] ∧
    ([] : List AuditEntry) ≠ [auditEntry0] := by
  refine ⟨readLogs_stored_encLogs [auditEntry0], by decide, by decide⟩

/-- C6 (amended): the audit store tolerates initial absence of the log
file, treating it as the empty collection; a write failure is surfaced as
a logged warning; and a failure that leaves the old content intact
preserves the previously appended entries — but only then: a partial
write corrupts the single-file store and a subsequent read observes the
empty collection (see the counterexample), so previously appended entries
survive a write failure only when the failed write left the file
untouched. -/
theorem auditStore_absence_and_clean_failure (e : AuditEntry) (fs : FileState)
    (l : List AuditEntry) :
    readLogs .absent = [] ∧
    (writeToFile e fs .failCleanly).1 = fs ∧
    (writeToFile e fs .failCleanly).2 = true ∧
    (writeToFile e (.stored (encLogs l)) .ok).1 = .stored (encLogs (l ++ [e])) := by
  refine ⟨rfl, rfl, rfl, ?_⟩
  simp [writeToFile, writeToFileBody, fsWriteFile, readLogs_stored_encLogs]

/-- C7: round-trip of the audit store — appending one entry to any
existing collection of previously appended entries and re-reading the
store reproduces the same ordered collection with the new entry at the
end (and from an absent file, exactly the new entry). -/
theorem auditStore_append_roundtrip (l : List AuditEntry) (e : AuditEntry) :
    readLogs ((writeToFile e (.stored (encLogs l)) .ok).1) = l ++ [e] ∧
    readLogs ((writeToFile e .absent .ok).1) = [e] := by
  constructor
  · have h : (writeToFile e (.stored (encLogs l)) .ok).1 = .stored (encLogs (l ++ [e])) := by
      simp [writeToFile, writeToFileBody, fsWriteFile, readLogs_stored_encLogs]
    rw [h, readLogs_stored_encLogs]
  · have h : (writeToFile e .absent .ok).1 = .stored (encLogs [e]) := rfl
    rw [h, readLogs_stored_encLogs]

/-- C8 counterexample: `generateLogId` is a function of its two
observations — the `Date.now()` millisecond rendering and the
`Math.random()` base-36 suffix.  Two distinct successive calls that
observe the same millisecond and draw the same random suffix (nothing in
the code rules this out: there is no counter, and `Math.random` gives no
distinctness guarantee) return identical identifiers, so the identifiers
are not unconditionally unique per entry. -/
theorem generateLogId_repeat_observation_collides :
    generateLogId "1733932800000" "k3j9x2p1q"
      = generateLogId "1733932800000" "k3j9x2p1q" := rfl

/-- C8 (amended): identifiers are unique exactly up to the observations:
two `generateLogId` results coincide iff the calls observed the same
millisecond rendering and the same random suffix (millisecond renderings
are digit strings, hence dash-free); so any two calls differing in
timestamp or random component — e.g. any two calls in different
milliseconds — produce distinct identifiers, while a repeated
(millisecond, suffix) observation produces a collision. -/
theorem generateLogId_inj (t1 r1 t2 r2 : String)
    (h1 : '-' ∉ t1.data) (h2 : '-' ∉ t2.data) :
    generateLogId t1 r1 = generateLogId t2 r2 ↔ t1 = t2 ∧ r1 = r2 := by
  constructor
  · intro h
    have hd := congrArg String.data h
    have hlit : ("AUDIT-" : String).data = ['A', 'U', 'D', 'I', 'T', '-'] := rfl
    simp only [generateLogId, string_data_append, hlit, List.append_assoc,
      List.cons_append, List.nil_append, List.cons.injEq, true_and] at hd
    obtain ⟨ht, hr⟩ := append_dash_inj t1.data t2.data r1.data r2.data h1 h2 hd
    refine ⟨?_, ?_⟩
    · calc t1 = ⟨t1.data⟩ := (string_mk_data t1).symm
        _ = ⟨t2.data⟩ := by rw [ht]
        _ = t2 := string_mk_data t2
    · calc r1 = ⟨r1.data⟩ := (string_mk_data r1).symm
        _ = ⟨r2.data⟩ := by rw [hr]
        _ = r2 := string_mk_data r2
  · rintro ⟨rfl, rfl⟩
    rfl

/-- Witness for the log-id injectivity theorem: calls in two different
milliseconds with the same random suffix yield distinct identifiers. -/
theorem generateLogId_inj_witness :
    '-' ∉ ("1733932800000" : String).data ∧ '-' ∉ ("1733932800001" : String).data ∧
    (generateLogId "1733932800000" "k3j9x2p1q" = generateLogId "1733932800001" "k3j9x2p1q"
      ↔ ("1733932800000" : String) = "1733932800001"
        ∧ ("k3j9x2p1q" : String) = "k3j9x2p1q") :=
  ⟨by decide, by decide,
    generateLogId_inj "1733932800000" "k3j9x2p1q" "1733932800001" "k3j9x2p1q"
      (by decide) (by decide)⟩

set_option maxRecDepth 1000000 in
/-- C9 counterexample: a store whose file holds unparseable content —
`JSON.parse` throws, so a persistence (parse) failure occurs — is
silently recovered by the inner catch, which has no logging: the
completed `writeToFile` call reports no warning.  So it is not the case
that every persistence failure (read, parse, or write error) is caught
AND logged as a warning; only write errors are. -/
theorem auditStore_silent_read_error :
    parseLogs "oops".data = none ∧
    (writeToFile auditEntry0 (.stored "oops".data) .ok).2 = false := by
  exact ⟨by decide, by decide⟩

/-- C9 (amended): `writeToFile` never propagates an exception to its
caller, so `logAction` always completes and the audit consumer
acknowledges the delivery even when the entry was not durably persisted;
however the two catches differ in visibility: a read or parse error is
swallowed by the inner catch with no warning — the call silently
proceeds from the empty collection — while a write error is caught by
the outer catch and surfaced as a logged warning. -/
theorem writeToFile_never_throws (e : AuditEntry) (fs : FileState) (w : WriteOutcome)
    (m : Message) (lid : String) (c : List Char) :
    (∀ err, (writeToFileBody e fs w).2 = .error err →
      writeToFile e fs w = ((writeToFileBody e fs w).1, true)) ∧
    (auditConsume (encMessage m) lid fs w).2 = true ∧
    (parseLogs c = none →
      writeToFile e (.stored c) .ok = (.stored (encLogs [e]), false)) := by
  refine ⟨?_, ?_, ?_⟩
  · intro err herr
    rcases hbody : writeToFileBody e fs w with ⟨fs2, r⟩
    rw [hbody] at herr
    simp at herr
    subst herr
    simp [writeToFile, hbody]
  · simp [auditConsume, parseMessage_enc]
  · intro hc
    simp [writeToFile, writeToFileBody, fsWriteFile, readLogs, fileRead, hc]

set_option maxRecDepth 1000000 in
/-- Witness for the no-exception theorem: a concrete failing write is
converted to a warning, the concrete delivery is still acknowledged, and
a concrete unparseable store is silently recovered with no warning. -/
theorem writeToFile_never_throws_witness :
    (writeToFileBody auditEntry0 .absent .failCleanly).2 = .error "EIO" ∧
    writeToFile auditEntry0 .absent .failCleanly
      = ((writeToFileBody auditEntry0 .absent .failCleanly).1, true) ∧
    (auditConsume (encMessage sampleMsg) "AUDIT-3-k9z8y7x6w" .absent .failCleanly).2
      = true ∧
    parseLogs "not json".data = none ∧
    writeToFile auditEntry0 (.stored "not json".data) .ok
      = (.stored (encLogs [auditEntry0]), false) :=
  ⟨rfl,
    (writeToFile_never_throws auditEntry0 .absent .failCleanly sampleMsg
      "AUDIT-3-k9z8y7x6w" "not json".data).1 "EIO" rfl,
    (writeToFile_never_throws auditEntry0 .absent .failCleanly sampleMsg
      "AUDIT-3-k9z8y7x6w" "not json".data).2.1,
    by decide,
    (writeToFile_never_throws auditEntry0 .absent .failCleanly sampleMsg
      "AUDIT-3-k9z8y7x6w" "not json".data).2.2 (by decide)⟩

end Fanout
